import Mathlib

/-!
Verification development for the geotrack analytics engine
(backend/processing/data_processor.py and backend/processing/heatmap_generator.py).

The Python code is embedded shallowly over exact rationals:

* float arithmetic (+, -, *, /, abs, min, max, %) is modelled by the
  corresponding exact operation on the rationals;
* the two transcendental primitives that have no exact rational counterpart,
  np.degrees(np.arctan2 dx dy) % 360 (the helper called _bearing_deg) and
  np.hypot, are abstracted as explicit function parameters (bearing, hyp);
  concrete instances supply stand-ins agreeing with the true values at the
  offsets that actually occur;
* the k-nearest-neighbour query (sklearn NearestNeighbors.kneighbors) is
  abstracted as a per-row candidate list, sorted by distance and excluding
  the row itself, exactly the slice nn_idx[i, 1:] / nn_dist[i, 1:] that the
  reconstruction loop consumes;
* a pandas DataFrame is modelled at the granularity each claim needs:
  a list of rows, a list of per-vehicle row counts, or a column-name list.
-/

/-- Python float modulo x % m for positive m (result in [0, m)), as used by
the helper computing angular differences. -/
def qmod (x m : ℚ) : ℚ := x - m * ⌊x / m⌋

/-- Model of the source helper computing the smallest absolute difference of two
bearings in degrees: abs((a - b + 180.0) % 360.0 - 180.0). -/
def angDiff (a b : ℚ) : ℚ := |qmod (a - b + 180) 360 - 180|

/-- Model of np.clip v lo hi = min (max v lo) hi. -/
def clip (v lo hi : ℚ) : ℚ := min (max v lo) hi

/-- Minimum of a list of rationals, as np.min on a nonempty array (the value on
the empty list is irrelevant: the loop only takes it on nonempty data). -/
def listMin : List ℚ → ℚ
  | [] => 0
  | x :: xs => xs.foldl min x

/-- First element of a list attaining the maximal value of f, as
np.argmax (which returns the first index of the maximum). -/
def argmaxFirst (f : α → ℚ) : List α → Option α
  | [] => none
  | x :: xs => some (xs.foldl (fun b a => if f b < f a then a else b) x)

/-- Model of PathReconstructionConfig from data_processor.py. The random seed
field is omitted: no randomness is consumed by the reconstruction loop. -/
structure PathCfg where
  k_neighbors : ℕ := 6
  max_link_m : ℚ := 160
  heading_tol_deg : ℚ := 35
  expected_step_s : ℚ := 10
  min_speed_kmh : ℚ := 1

/-- Per-vehicle input to the linking loop of DataProcessor.reconstruct_paths,
after the static filter and the projection to the local planar frame.
X i is the planar position (x_m, y_m) of row i, azm i its recorded azimuth,
spd i its speed in km/h, cand i the k-nearest-neighbour candidate list for
row i (pairs of row index and planar distance, ascending by distance, self
excluded), and bearing abstracts the transcendental helper _bearing_deg. -/
structure LinkInputs where
  n : ℕ
  X : ℕ → ℚ × ℚ
  azm : ℕ → ℚ
  spd : ℕ → ℚ
  cand : ℕ → List (ℕ × ℚ)
  bearing : ℚ → ℚ → ℚ

/-- Successor and predecessor arrays of the linking loop (−1 is None here). -/
structure LinkState where
  succ : ℕ → Option ℕ
  pred : ℕ → Option ℕ

/-- Angular difference between the azimuth recorded at row i and the bearing
from row i to row j, as recomputed by the loop from the planar offsets. -/
def angTo (inp : LinkInputs) (i j : ℕ) : ℚ :=
  angDiff (inp.azm i) (inp.bearing ((inp.X j).1 - (inp.X i).1) ((inp.X j).2 - (inp.X i).2))

/-- The candidate mask of the loop: cand_dist <= max_link_m and the angular
difference to the candidate within heading_tol_deg. -/
def maskedCands (inp : LinkInputs) (cfg : PathCfg) (i : ℕ) : List (ℕ × ℚ) :=
  (inp.cand i).filter
    (fun jd => decide (jd.2 ≤ cfg.max_link_m ∧ angTo inp i jd.1 ≤ cfg.heading_tol_deg))

/-- Expected step length from speed: np.clip((spd/3.6)*expected_step_s,
0.25*max_link_m, 0.8*max_link_m). -/
def expectedStep (cfg : PathCfg) (s : ℚ) : ℚ :=
  clip (s / (36/10) * cfg.expected_step_s) (1/4 * cfg.max_link_m) (4/5 * cfg.max_link_m)

/-- Composite candidate score of the loop:
0.7*(1 - ang/heading_tol) + 0.3*(1 - abs(dist - expected)/max_link). -/
def linkScore (inp : LinkInputs) (cfg : PathCfg) (i : ℕ) (jd : ℕ × ℚ) : ℚ :=
  7/10 * (1 - angTo inp i jd.1 / cfg.heading_tol_deg) +
    3/10 * (1 - |jd.2 - expectedStep cfg (inp.spd i)| / cfg.max_link_m)

/-- The tentative successor row i picks: the first masked candidate of maximal
score, as cand_idx[np.argmax(score)]. -/
def selectTarget (inp : LinkInputs) (cfg : PathCfg) (i : ℕ) : Option ℕ :=
  (argmaxFirst (linkScore inp cfg i) (maskedCands inp cfg i)).map (fun jd => jd.1)

/-- Minimum angular difference over the masked candidates of row i, the
np.min(ang) the conflict resolution compares the old edge against. -/
def minMaskedAng (inp : LinkInputs) (cfg : PathCfg) (i : ℕ) : ℚ :=
  listMin ((maskedCands inp cfg i).map (fun jd => angTo inp i jd.1))

/-- Record the edge i -> j: succ[i] = j and pred[j] = i. -/
def install (st : LinkState) (i j : ℕ) : LinkState :=
  { succ := Function.update st.succ i (some j)
    pred := Function.update st.pred j (some i) }

/-- One iteration of the successor-selection loop of reconstruct_paths for row
i (lines 142-182 of data_processor.py): pick the best masked candidate j; if j
already has a predecessor, keep the existing edge only when its recomputed
angular difference is within tolerance and at most np.min(ang) over the masked
candidates of i, otherwise detach the old predecessor and install i -> j. -/
def linkStep (inp : LinkInputs) (cfg : PathCfg) (st : LinkState) (i : ℕ) : LinkState :=
  match argmaxFirst (linkScore inp cfg i) (maskedCands inp cfg i) with
  | none => st
  | some jd =>
    let j := jd.1
    match st.pred j with
    | none => install st i j
    | some _ =>
      match (List.range inp.n).find? (fun o => st.succ o == some j) with
      | none => install st i j
      | some old =>
        if angTo inp old j ≤ cfg.heading_tol_deg ∧ angTo inp old j ≤ minMaskedAng inp cfg i
        then st
        else install { st with succ := Function.update st.succ old none } i j

/-- The whole successor-selection loop: fold linkStep over the rows in order,
starting from succ = pred = all None. -/
def runLink (inp : LinkInputs) (cfg : PathCfg) : LinkState :=
  (List.range inp.n).foldl (linkStep inp cfg) ⟨fun _ => none, fun _ => none⟩

/-- The while-loop of the chain extraction: follow successor links from cur,
appending nodes until None or an already visited node. vis is the list of
visited nodes; the returned second component is the extended visited list.
The fuel argument bounds the number of iterations; with fuel = n it is not
restrictive since every appended node is fresh and succ targets are row
indices below n. -/
def walk (succ : ℕ → Option ℕ) : ℕ → ℕ → List ℕ → List ℕ × List ℕ
  | 0, _, vis => ([], vis)
  | fuel + 1, cur, vis =>
    match succ cur with
    | none => ([], vis)
    | some nxt =>
      if nxt ∈ vis then ([], vis)
      else
        let r := walk succ fuel nxt (nxt :: vis)
        (nxt :: r.1, r.2)

/-- The for-loop of the chain extraction (lines 186-196): start a chain at
every yet unvisited node without predecessor and walk successor links. -/
def chainsAux (succ pred : ℕ → Option ℕ) (fuel : ℕ) : List ℕ → List ℕ → List (List ℕ)
  | [], _ => []
  | i :: rest, vis =>
    if i ∈ vis ∨ (pred i).isSome then chainsAux succ pred fuel rest vis
    else
      let r := walk succ fuel i (i :: vis)
      (i :: r.1) :: chainsAux succ pred fuel rest r.2

/-- All chains extracted from the successor/predecessor arrays over rows
0..n-1, in loop order. -/
def extractChains (n : ℕ) (succ pred : ℕ → Option ℕ) : List (List ℕ) :=
  chainsAux succ pred n (List.range n) []

/-- Consecutive pairs of a chain, the row-index pairs of its segments
(a chain of fewer than 2 nodes yields no pairs, matching the len >= 2 guard). -/
def chainPairs (c : List ℕ) : List (ℕ × ℕ) := c.zip c.tail

/-- Row-index pairs (source, destination) of every segment one vehicle
contributes: chains of the state computed by the linking loop, cut into
consecutive pairs. -/
def segPairs (inp : LinkInputs) (cfg : PathCfg) : List (ℕ × ℕ) :=
  ((extractChains inp.n (runLink inp cfg).succ (runLink inp cfg).pred).map chainPairs).flatten

/-- One row of the segments DataFrame built from a chain (planar endpoint
coordinates, length and emissions; the geographic columns are carried by the
same row indices and are not needed by the claims below). -/
structure Seg where
  x1 : ℚ
  y1 : ℚ
  x2 : ℚ
  y2 : ℚ
  dist_km : ℚ
  segment_kg_co2e : ℚ
deriving DecidableEq

/-- Build the segment row for the index pair pr, as lines 198-212:
d_m = hypot(x2-x1, y2-y1), dist_km = d_m/1000, segment_kg_co2e =
dist_km * ef_kg_per_km. hyp abstracts np.hypot. -/
def mkSeg (hyp : ℚ → ℚ → ℚ) (ef : ℚ) (X : ℕ → ℚ × ℚ) (pr : ℕ × ℕ) : Seg :=
  let x1 := (X pr.1).1
  let y1 := (X pr.1).2
  let x2 := (X pr.2).1
  let y2 := (X pr.2).2
  let dm := hyp (x2 - x1) (y2 - y1)
  { x1 := x1, y1 := y1, x2 := x2, y2 := y2
    dist_km := dm / 1000, segment_kg_co2e := dm / 1000 * ef }

/-- All segment rows one vehicle contributes to the result of
reconstruct_paths. -/
def vehicleSegments (hyp : ℚ → ℚ → ℚ) (ef : ℚ) (inp : LinkInputs) (cfg : PathCfg) :
    List Seg :=
  (segPairs inp cfg).map (mkSeg hyp ef inp.X)

/-- One ping row carrying its speed_kmh value; none models a NaN cell
(the spd field absent or unparseable). -/
structure SPing where
  speed : Option ℚ
deriving DecidableEq

/-- The static-suppression filter of reconstruct_paths, lines 123-124:
when the speed_kmh column is present, keep the rows with
speed_kmh.fillna(0) >= min_speed_kmh; otherwise keep everything. -/
def staticFilter (hasSpeedCol : Bool) (minSpeed : ℚ) (rows : List SPing) : List SPing :=
  if hasSpeedCol then rows.filter (fun p => decide (minSpeed ≤ p.speed.getD 0)) else rows

/-- The per-vehicle quota of safe_sample, line 75:
per = max(1, max_rows // max(1, len(vids))). -/
def perQuota (maxRows nVids : ℕ) : ℕ := max 1 (maxRows / max 1 nVids)

/-- Model of DataProcessor.safe_sample (lines 66-79) at the granularity of
per-vehicle row counts: the input is the list of (vehicle id, row count)
groups with distinct non-null ids, and g.sample(n=m, random_state=42)
contributes only its size m = min(len(g), per). The branch for a missing
randomized_id column is outside this model. -/
def safeSampleCounts (maxRows : ℕ) (groups : List (String × ℕ)) : List (String × ℕ) :=
  if (groups.map (fun g => g.2)).sum ≤ maxRows then groups
  else groups.map (fun g => (g.1, min g.2 (perQuota maxRows groups.length)))

/-- Linear-interpolation quantile of pandas Series.quantile / numpy percentile:
on the sorted values v, the value at position q*(n-1) interpolated between the
two neighbouring entries. Only called on nonempty data. -/
def quantileLinear (q : ℚ) (xs : List ℚ) : ℚ :=
  let s := List.insertionSort (fun a b : ℚ => a ≤ b) xs
  let pos := q * ((xs.length : ℚ) - 1)
  let f := ⌊pos⌋
  let lo := s.getD f.toNat 0
  let hi := s.getD (f.toNat + 1) lo
  lo + (pos - (f : ℚ)) * (hi - lo)

/-- The non-NaN speeds of a DataFrame: s = df["speed_kmh"].dropna(). -/
def knownSpeeds (df : List SPing) : List ℚ := df.filterMap (fun p => p.speed)

/-- The low-speed rows selected by calculate_statistics, line 248:
low = df[df["speed_kmh"] < max(5.0, s.quantile(0.25))]. A NaN speed compares
false and is excluded. -/
def lowPings (df : List SPing) : List SPing :=
  df.filter (fun p =>
    match p.speed with
    | some v => decide (v < max 5 (quantileLinear (1/4) (knownSpeeds df)))
    | none => false)

/-- The rows actually handed to the DBSCAN congestion clustering, lines
249-257: the low-speed rows when there are at least 5 of them, nothing
otherwise (the cluster count is then reported as 0 without clustering). -/
def congestionInput (df : List SPing) : Option (List SPing) :=
  if 5 ≤ (lowPings df).length then some (lowPings df) else none

/-- Stated from the spec for comparison (section 4.5): the slow rows are those
with speed below the smaller of the fixed threshold 5.0 and the 25th
percentile. This is the claimed selection, not the implemented one. -/
def specSlowPings (df : List SPing) : List SPing :=
  df.filter (fun p =>
    match p.speed with
    | some v => decide (v < min 5 (quantileLinear (1/4) (knownSpeeds df)))
    | none => false)

/-- One input row of the grid aggregation: geographic lat/lng plus the planar
x,y produced by the caller and the weight to accumulate. -/
structure GRow where
  lat : ℚ
  lng : ℚ
  x : ℚ
  y : ℚ
  w : ℚ
deriving DecidableEq

/-- Integer grid cell of a row: (floor(x/cell), floor(y/cell)). -/
def cellKey (cell : ℚ) (r : GRow) : ℤ × ℤ := (⌊r.x / cell⌋, ⌊r.y / cell⌋)

/-- Lexicographic order on grid keys, the order in which np.unique returns the
stacked (ix, iy) rows. -/
def keyLe (a b : ℤ × ℤ) : Prop := a.1 < b.1 ∨ (a.1 = b.1 ∧ a.2 ≤ b.2)

instance : DecidableRel keyLe := fun a b =>
  decidable_of_iff (a.1 < b.1 ∨ (a.1 = b.1 ∧ a.2 ≤ b.2)) Iff.rfl

instance : IsTrans (ℤ × ℤ) keyLe :=
  ⟨by
    intro a b c hab hbc
    rcases a with ⟨a1, a2⟩
    rcases b with ⟨b1, b2⟩
    rcases c with ⟨c1, c2⟩
    simp only [keyLe] at hab hbc ⊢
    omega⟩

instance : IsAntisymm (ℤ × ℤ) keyLe :=
  ⟨by
    intro a b hab hba
    rcases a with ⟨a1, a2⟩
    rcases b with ⟨b1, b2⟩
    simp only [keyLe] at hab hba
    simp only [Prod.mk.injEq]
    omega⟩

instance : IsTotal (ℤ × ℤ) keyLe :=
  ⟨by
    intro a b
    rcases a with ⟨a1, a2⟩
    rcases b with ⟨b1, b2⟩
    simp only [keyLe]
    omega⟩

/-- Mean of a list of rationals, as a pandas column mean (the calls below only
take it on nonempty columns). -/
def qmean (xs : List ℚ) : ℚ := xs.sum / (xs.length : ℚ)

/-- Model of HeatmapGenerator._grid_accumulate (lines 70-91): per distinct
grid cell of the input rows, in the sorted order of np.unique, emit the cell
center back-projected through a frame anchored at the mean of the lat/lng
columns of the input itself, together with the summed weight of the cell.
mpd abstracts the cosine polynomial _meters_per_degree. -/
def gridAccumulate (mpd : ℚ → ℚ × ℚ) (rows : List GRow) (cell : ℚ) : List (ℚ × ℚ × ℚ) :=
  let lat0 := qmean (rows.map (fun r => r.lat))
  let lng0 := qmean (rows.map (fun r => r.lng))
  let mx := (mpd lat0).1
  let my := (mpd lat0).2
  let uniq := List.insertionSort keyLe ((rows.map (cellKey cell)).dedup)
  uniq.map (fun k =>
    let cx := ((k.1 : ℚ) + 1/2) * cell
    let cy := ((k.2 : ℚ) + 1/2) * cell
    (lat0 + cy / my, lng0 + cx / mx,
      ((rows.filter (fun r => decide (cellKey cell r = k))).map (fun r => r.w)).sum))

/-- Stated from the spec for comparison (sections 3 and 4.4): grid
accumulation whose cell centers are back-projected through the frame
(lat0, lng0, mpd lat0) that produced the x,y inputs, passed in explicitly. -/
def gridAccumulateSameFrame (mpd : ℚ → ℚ × ℚ) (lat0 lng0 : ℚ) (rows : List GRow)
    (cell : ℚ) : List (ℚ × ℚ × ℚ) :=
  let mx := (mpd lat0).1
  let my := (mpd lat0).2
  let uniq := List.insertionSort keyLe ((rows.map (cellKey cell)).dedup)
  uniq.map (fun k =>
    let cx := ((k.1 : ℚ) + 1/2) * cell
    let cy := ((k.2 : ℚ) + 1/2) * cell
    (lat0 + cy / my, lng0 + cx / mx,
      ((rows.filter (fun r => decide (cellKey cell r = k))).map (fun r => r.w)).sum))

/-- A segment row as consumed by the heatmap generator (geographic endpoint
coordinates only). -/
structure SegGeo where
  lat1 : ℚ
  lng1 : ℚ
  lat2 : ℚ
  lng2 : ℚ
deriving DecidableEq

/-- The pickups layer of HeatmapGenerator.generate_endpoints_map (lines
270-285): the global frame is anchored at the mean over the concatenated
start and end coordinates, the start rows are projected in that frame with
unit weight, and the result is handed to _grid_accumulate. -/
def pickupsGrid (mpd : ℚ → ℚ × ℚ) (segs : List SegGeo) (cell : ℚ) : List (ℚ × ℚ × ℚ) :=
  let lat0 := qmean (segs.map (fun s => s.lat1) ++ segs.map (fun s => s.lat2))
  let lng0 := qmean (segs.map (fun s => s.lng1) ++ segs.map (fun s => s.lng2))
  let mx := (mpd lat0).1
  let my := (mpd lat0).2
  let rows := segs.map (fun s =>
    { lat := s.lat1, lng := s.lng1
      x := (s.lng1 - lng0) * mx, y := (s.lat1 - lat0) * my, w := 1 : GRow })
  gridAccumulate mpd rows cell

/-- Stated from the spec for comparison: the same pickups layer, but with the
cell centers back-projected through the global frame that produced x,y. -/
def pickupsGridSameFrame (mpd : ℚ → ℚ × ℚ) (segs : List SegGeo) (cell : ℚ) :
    List (ℚ × ℚ × ℚ) :=
  let lat0 := qmean (segs.map (fun s => s.lat1) ++ segs.map (fun s => s.lat2))
  let lng0 := qmean (segs.map (fun s => s.lng1) ++ segs.map (fun s => s.lng2))
  let mx := (mpd lat0).1
  let my := (mpd lat0).2
  let rows := segs.map (fun s =>
    { lat := s.lat1, lng := s.lng1
      x := (s.lng1 - lng0) * mx, y := (s.lat1 - lat0) * my, w := 1 : GRow })
  gridAccumulateSameFrame mpd lat0 lng0 rows cell

/-- The shape of a DataFrame as seen by the guards of reconstruct_paths:
its column names and its row count. -/
structure RawDF where
  cols : List String
  nrows : ℕ
deriving DecidableEq

/-- The columns reconstruct_paths requires, line 116. -/
def requiredCols : List String := ["lat", "lng", "randomized_id", "azm"]

/-- The fixed message of the ValueError raised on line 117. -/
def reconColsMsg : String := "reconstruct_paths requires columns: randomized_id, lat, lng, azm"

/-- The entry guards of DataProcessor.reconstruct_paths (lines 110-117): an
empty input returns the empty segments frame before any column check; a
non-empty input missing a required column raises ValueError with a fixed
message; otherwise the per-vehicle computation (abstracted as compute) runs. -/
def reconstructPathsTop (compute : RawDF → List Seg) (df : RawDF) :
    Except String (List Seg) :=
  if df.nrows = 0 then .ok []
  else if requiredCols.all (fun c => df.cols.contains c) then .ok (compute df)
  else .error reconColsMsg

/-- Witness instance: three pings of one vehicle on a south-north line, 50 m
apart, azimuth 0 and speed 1 km/h (the end-to-end scenario of the spec). All
planar offsets are axis aligned, so the transcendental stand-ins are exact. -/
def inpW : LinkInputs where
  n := 3
  X := fun i => (0, 50 * (i : ℚ))
  azm := fun _ => 0
  spd := fun _ => 1
  cand := fun i =>
    match i with
    | 0 => [(1, 50), (2, 100)]
    | 1 => [(0, 50), (2, 50)]
    | 2 => [(1, 50), (0, 100)]
    | _ => []
  bearing := fun _ dy => if 0 < dy then 0 else 180

/-- Exact stand-in for np.hypot on axis-aligned offsets: hypot dx dy =
abs dx + abs dy agrees with the Euclidean norm whenever dx = 0 or dy = 0. -/
def hypAxis (dx dy : ℚ) : ℚ := |dx| + |dy|

/-- The default reconstruction configuration. -/
def cfgW : PathCfg := {}

/-- Initial linking state: succ and pred all None. -/
def stInit : LinkState := ⟨fun _ => none, fun _ => none⟩

/-- State of the witness run after row 0 links to row 1. -/
def stW1 : LinkState := install stInit 0 1

/-- State of the witness run after row 1 links to row 2. -/
def stW2 : LinkState := install stW1 1 2

/-- Rational stand-in for the bearing helper at the offsets of the
conflict-resolution instance below. Axis-aligned offsets are exact
(0, 90, 180, 270 degrees); diagonal ones are exact at multiples of 45
degrees and rounded to 0.01 degrees otherwise, far from every comparison
threshold of that instance. -/
def bearingCE (dx dy : ℚ) : ℚ :=
  if dy = 0 then (if 0 < dx then 90 else 270)
  else if dx = 0 then (if 0 < dy then 0 else 180)
  else if dx = 40 ∧ dy = -40 then 135
  else if dx = 125 ∧ dy = -40 then 10774/100
  else if dx = -40 ∧ dy = 40 then 315
  else if dx = 85 ∧ dy = -40 then 11520/100
  else if dx = -85 ∧ dy = 40 then 29520/100
  else if dx = -125 ∧ dy = 40 then 28774/100
  else 0

/-- Conflict-resolution instance: one vehicle with four pings (all speeds
1 km/h). Row 0 at (-40,0) azimuth 44, row 1 at (0,-40) azimuth 50, row 2 at
(0,0) azimuth 290, row 3 at (85,-40) azimuth 90. Candidate distances are the
planar distances (rounded to 0.01 m where irrational, far from the 160 m
threshold), ascending per row. -/
def ceInp : LinkInputs where
  n := 4
  X := fun i =>
    match i with
    | 0 => (-40, 0)
    | 1 => (0, -40)
    | 2 => (0, 0)
    | _ => (85, -40)
  azm := fun i =>
    match i with
    | 0 => 44
    | 1 => 50
    | 2 => 290
    | _ => 90
  spd := fun _ => 1
  cand := fun i =>
    match i with
    | 0 => [(2, 40), (1, 5657/100), (3, 13124/100)]
    | 1 => [(2, 40), (0, 5657/100), (3, 85)]
    | 2 => [(0, 40), (1, 40), (3, 9394/100)]
    | 3 => [(1, 85), (2, 9394/100), (0, 13124/100)]
    | _ => []
  bearing := bearingCE

/-- Configuration of the conflict-resolution instance: default values with a
wider heading tolerance of 90 degrees. -/
def ceCfg : PathCfg := { heading_tol_deg := 90 }

/-- State of the conflict run after row 0 links to row 2. -/
def stC1 : LinkState := install stInit 0 2

/-- State of the conflict run after row 1 steals row 2 from row 0. -/
def stC2 : LinkState := install { stC1 with succ := Function.update stC1.succ 0 none } 1 2

/-- State of the conflict run after row 2 links to row 0. -/
def stC3 : LinkState := install stC2 2 0

/-- Speed-statistics instance: 5 pings at 6 km/h and 16 pings at 20 km/h.
Its 25th percentile is 20, so the implemented low-speed threshold
max(5, p25) is 20 while the claimed one min(5, p25) is 5. -/
def dfCE : List SPing := List.replicate 5 ⟨some 6⟩ ++ List.replicate 16 ⟨some 20⟩

/-- Constant stand-in for the meters-per-degree polynomial, two reference
values near the equator; the frame-mixing divergence below is driven by the
differing frame origins, not by the latitude dependence of the scale. -/
def mpdC : ℚ → ℚ × ℚ := fun _ => (100000, 100000)

/-- Frame-mixing instance: two segments whose start points lie at latitude 0
around longitude 10.0004 while their end points lie at latitude 0.01 around
longitude 10.0104, so the mean over the start rows alone differs from the
mean over all endpoint rows. -/
def segsC : List SegGeo :=
  [{ lat1 := 0, lng1 := 10, lat2 := 1/100, lng2 := 1001/100 },
   { lat1 := 0, lng1 := 10 + 8/10000, lat2 := 1/100, lng2 := 1001/100 + 8/10000 }]

/-- Two grid rows used to witness the permutation invariance of the grid
accumulation. -/
def rowA : GRow := { lat := 1/10, lng := 20, x := 30, y := 100, w := 2 }

/-- Second grid row of the permutation witness, in the same cell as the first. -/
def rowB : GRow := { lat := 3/10, lng := 21, x := 60, y := 110, w := 5 }

theorem walk_fst_snd (succ : ℕ → Option ℕ) :
    ∀ (fuel cur : ℕ) (vis : List ℕ),
      (walk succ fuel cur vis).2 = (walk succ fuel cur vis).1.reverse ++ vis := by
  intro fuel
  induction fuel with
  | zero => intro cur vis; simp [walk]
  | succ f ih =>
    intro cur vis
    simp only [walk]
    cases h : succ cur with
    | none => simp
    | some nxt =>
      by_cases hm : nxt ∈ vis
      · simp [hm]
      · simp only [hm, if_false, List.reverse_cons]
        rw [ih]
        simp

theorem walk_fresh (succ : ℕ → Option ℕ) :
    ∀ (fuel cur : ℕ) (vis : List ℕ), ∀ x ∈ (walk succ fuel cur vis).1, x ∉ vis := by
  intro fuel
  induction fuel with
  | zero => intro cur vis x hx; simp [walk] at hx
  | succ f ih =>
    intro cur vis x hx
    simp only [walk] at hx
    cases h : succ cur with
    | none => rw [h] at hx; simp at hx
    | some nxt =>
      rw [h] at hx
      by_cases hm : nxt ∈ vis
      · simp [hm] at hx
      · simp only [hm, if_false, List.mem_cons] at hx
        rcases hx with rfl | hx
        · exact hm
        · intro hv
          exact ih nxt (nxt :: vis) x hx (List.mem_cons_of_mem _ hv)

theorem walk_nodup (succ : ℕ → Option ℕ) :
    ∀ (fuel cur : ℕ) (vis : List ℕ), (walk succ fuel cur vis).1.Nodup := by
  intro fuel
  induction fuel with
  | zero => intro cur vis; simp [walk]
  | succ f ih =>
    intro cur vis
    simp only [walk]
    cases h : succ cur with
    | none => simp
    | some nxt =>
      by_cases hm : nxt ∈ vis
      · simp [hm]
      · simp only [hm, if_false, List.nodup_cons]
        refine ⟨fun hmem => ?_, ih nxt (nxt :: vis)⟩
        exact walk_fresh succ f nxt (nxt :: vis) nxt hmem (List.mem_cons_self _ _)

theorem walk_chain (succ : ℕ → Option ℕ) :
    ∀ (fuel cur : ℕ) (vis : List ℕ),
      List.Chain (fun a b => succ a = some b) cur (walk succ fuel cur vis).1 := by
  intro fuel
  induction fuel with
  | zero => intro cur vis; simp [walk]
  | succ f ih =>
    intro cur vis
    simp only [walk]
    cases h : succ cur with
    | none => simp
    | some nxt =>
      by_cases hm : nxt ∈ vis
      · simp [hm]
      · simp only [hm, if_false]
        exact List.Chain.cons h (ih nxt (nxt :: vis))

theorem chainsAux_flatten (succ pred : ℕ → Option ℕ) (fuel : ℕ) :
    ∀ (l vis : List ℕ),
      (chainsAux succ pred fuel l vis).flatten.Nodup ∧
        ∀ x ∈ (chainsAux succ pred fuel l vis).flatten, x ∉ vis := by
  intro l
  induction l with
  | nil => intro vis; simp [chainsAux]
  | cons i rest ih =>
    intro vis
    simp only [chainsAux]
    by_cases hskip : i ∈ vis ∨ (pred i).isSome
    · simpa [hskip] using ih vis
    · simp only [if_neg hskip, List.flatten_cons]
      have hiv : i ∉ vis := fun h => hskip (Or.inl h)
      have hwn := walk_nodup succ fuel i (i :: vis)
      have hwf := walk_fresh succ fuel i (i :: vis)
      have hvis' := walk_fst_snd succ fuel i (i :: vis)
      have ihr := ih (walk succ fuel i (i :: vis)).2
      have hcnodup : (i :: (walk succ fuel i (i :: vis)).1).Nodup := by
        refine List.nodup_cons.mpr ⟨fun hmem => ?_, hwn⟩
        exact hwf i hmem (List.mem_cons_self _ _)
      have hrest_not_c : ∀ x ∈ (chainsAux succ pred fuel rest (walk succ fuel i (i :: vis)).2).flatten,
          x ∉ i :: (walk succ fuel i (i :: vis)).1 := by
        intro x hx hxc
        apply ihr.2 x hx
        rw [hvis']
        rcases List.mem_cons.mp hxc with rfl | hxw
        · exact List.mem_append.mpr (Or.inr (List.mem_cons_self _ _))
        · exact List.mem_append.mpr (Or.inl (List.mem_reverse.mpr hxw))
      constructor
      · refine List.nodup_append.mpr ⟨hcnodup, ihr.1, ?_⟩
        intro x hxc hxr
        exact hrest_not_c x hxr hxc
      · intro x hx
        rcases List.mem_append.mp hx with hxc | hxr
        · rcases List.mem_cons.mp hxc with rfl | hxw
          · exact hiv
          · intro hv; exact hwf x hxw (List.mem_cons_of_mem _ hv)
        · intro hv
          apply ihr.2 x hxr
          rw [hvis']
          exact List.mem_append.mpr (Or.inr (List.mem_cons_of_mem _ hv))

theorem chainsAux_shape (succ pred : ℕ → Option ℕ) (fuel : ℕ) :
    ∀ (l vis : List ℕ), ∀ c ∈ chainsAux succ pred fuel l vis,
      ∃ h t, c = h :: t ∧ List.Chain (fun a b => succ a = some b) h t := by
  intro l
  induction l with
  | nil => intro vis c hc; simp [chainsAux] at hc
  | cons i rest ih =>
    intro vis c hc
    simp only [chainsAux] at hc
    by_cases hskip : i ∈ vis ∨ (pred i).isSome
    · rw [if_pos hskip] at hc
      exact ih vis c hc
    · rw [if_neg hskip, List.mem_cons] at hc
      rcases hc with rfl | hc
      · exact ⟨i, _, rfl, walk_chain succ fuel i (i :: vis)⟩
      · exact ih _ c hc

theorem chain_zip_rel {R : ℕ → ℕ → Prop} :
    ∀ (l : List ℕ) (a : ℕ), List.Chain R a l → ∀ pr ∈ (a :: l).zip l, R pr.1 pr.2 := by
  intro l
  induction l with
  | nil => intro a _ pr hpr; simp at hpr
  | cons b t ih =>
    intro a hch pr hpr
    rcases hch with _ | ⟨hab, hbt⟩
    rcases List.mem_cons.mp hpr with rfl | hpr
    · exact hab
    · exact ih b hbt pr hpr

theorem chainPairs_map_fst : ∀ c : List ℕ, (chainPairs c).map Prod.fst = c.dropLast := by
  intro c
  induction c with
  | nil => rfl
  | cons a t ih =>
    cases t with
    | nil => rfl
    | cons b t2 =>
      simp only [chainPairs, List.tail_cons, List.zip_cons_cons, List.map_cons] at ih ⊢
      rw [ih]
      rfl

theorem chainPairs_map_snd (c : List ℕ) : (chainPairs c).map Prod.snd = c.tail := by
  unfold chainPairs
  exact List.map_snd_zip c c.tail (by cases c <;> simp)

theorem flatten_map_sublist (f : List ℕ → List ℕ) (hf : ∀ c, (f c).Sublist c) :
    ∀ L : List (List ℕ), ((L.map f).flatten).Sublist L.flatten := by
  intro L
  induction L with
  | nil => simp
  | cons c L ih =>
    simp only [List.map_cons, List.flatten_cons]
    exact (hf c).append ih

/-- C1: within the result of one vehicle in reconstruct_paths, no row appears as
the source of more than one segment and no row appears as the destination of
more than one segment: the source entries of the segment index pairs are
pairwise distinct, and so are the destination entries. -/
theorem c1_endpoint_uniqueness (inp : LinkInputs) (cfg : PathCfg) :
    ((segPairs inp cfg).map Prod.fst).Nodup ∧ ((segPairs inp cfg).map Prod.snd).Nodup := by
  have hnodup : (extractChains inp.n (runLink inp cfg).succ (runLink inp cfg).pred).flatten.Nodup :=
    (chainsAux_flatten _ _ _ _ _).1
  constructor
  · have h1 : (segPairs inp cfg).map Prod.fst =
        ((extractChains inp.n (runLink inp cfg).succ (runLink inp cfg).pred).map
          (fun c => c.dropLast)).flatten := by
      unfold segPairs
      rw [List.map_flatten, List.map_map]
      congr 1
      apply List.map_congr_left
      intro c _
      exact chainPairs_map_fst c
    rw [h1]
    exact (flatten_map_sublist _ (fun c => List.dropLast_sublist c) _).nodup hnodup
  · have h2 : (segPairs inp cfg).map Prod.snd =
        ((extractChains inp.n (runLink inp cfg).succ (runLink inp cfg).pred).map
          (fun c => c.tail)).flatten := by
      unfold segPairs
      rw [List.map_flatten, List.map_map]
      congr 1
      apply List.map_congr_left
      intro c _
      exact chainPairs_map_snd c
    rw [h2]
    exact (flatten_map_sublist _ (fun c => List.tail_sublist c) _).nodup hnodup

theorem foldl_best_mem (f : α → ℚ) :
    ∀ (xs : List α) (x : α), xs.foldl (fun b a => if f b < f a then a else b) x ∈ x :: xs := by
  intro xs
  induction xs with
  | nil => intro x; simp
  | cons a as ih =>
    intro x
    simp only [List.foldl_cons]
    have h := ih (if f x < f a then a else x)
    by_cases hc : f x < f a <;> simp only [hc, if_true, if_false] at h ⊢ <;>
      rcases List.mem_cons.mp h with h | h <;> simp [h]

theorem argmaxFirst_mem (f : α → ℚ) (l : List α) (a : α) (h : argmaxFirst f l = some a) :
    a ∈ l := by
  cases l with
  | nil => simp [argmaxFirst] at h
  | cons x xs =>
    simp only [argmaxFirst, Option.some.injEq] at h
    rw [← h]
    exact foldl_best_mem f xs x

theorem maskedCands_spec (inp : LinkInputs) (cfg : PathCfg) (i : ℕ) (jd : ℕ × ℚ)
    (h : jd ∈ maskedCands inp cfg i) :
    jd ∈ inp.cand i ∧ jd.2 ≤ cfg.max_link_m ∧ angTo inp i jd.1 ≤ cfg.heading_tol_deg := by
  have := List.mem_filter.mp h
  simpa using this

/-- Every recorded successor edge comes from a masked candidate, hence from the
k-nearest-neighbour list and within max_link_m. -/
def succEdgeOK (inp : LinkInputs) (cfg : PathCfg) (s : ℕ → Option ℕ) : Prop :=
  ∀ i j, s i = some j → ∃ d, (j, d) ∈ inp.cand i ∧ d ≤ cfg.max_link_m

theorem succEdgeOK_install (inp : LinkInputs) (cfg : PathCfg) (s : ℕ → Option ℕ)
    (h : succEdgeOK inp cfg s) (i j : ℕ) (d : ℚ)
    (hd : (j, d) ∈ inp.cand i) (hdle : d ≤ cfg.max_link_m) :
    succEdgeOK inp cfg (Function.update s i (some j)) := by
  intro a b hab
  by_cases ha : a = i
  · subst ha
    rw [Function.update_same] at hab
    cases hab
    exact ⟨d, hd, hdle⟩
  · rw [Function.update_noteq ha] at hab
    exact h a b hab

theorem succEdgeOK_detach (inp : LinkInputs) (cfg : PathCfg) (s : ℕ → Option ℕ)
    (h : succEdgeOK inp cfg s) (o : ℕ) :
    succEdgeOK inp cfg (Function.update s o none) := by
  intro a b hab
  by_cases ha : a = o
  · subst ha; rw [Function.update_same] at hab; cases hab
  · rw [Function.update_noteq ha] at hab
    exact h a b hab

theorem linkStep_edgeOK (inp : LinkInputs) (cfg : PathCfg) (st : LinkState) (i : ℕ)
    (h : succEdgeOK inp cfg st.succ) : succEdgeOK inp cfg (linkStep inp cfg st i).succ := by
  unfold linkStep
  cases hA : argmaxFirst (linkScore inp cfg i) (maskedCands inp cfg i) with
  | none => exact h
  | some jd =>
    have hmem := maskedCands_spec inp cfg i jd (argmaxFirst_mem _ _ _ hA)
    have hinst : succEdgeOK inp cfg (install st i jd.1).succ := by
      show succEdgeOK inp cfg (Function.update st.succ i (some jd.1))
      exact succEdgeOK_install inp cfg st.succ h i jd.1 jd.2 (by simpa using hmem.1) hmem.2.1
    dsimp only
    cases st.pred jd.1 with
    | none => exact hinst
    | some p =>
      cases (List.range inp.n).find? (fun o => st.succ o == some jd.1) with
      | none => exact hinst
      | some old =>
        by_cases hc : angTo inp old jd.1 ≤ cfg.heading_tol_deg ∧
            angTo inp old jd.1 ≤ minMaskedAng inp cfg i
        · simpa [hc] using h
        · simp only [hc, if_false]
          show succEdgeOK inp cfg (Function.update (Function.update st.succ old none) i (some jd.1))
          exact succEdgeOK_install inp cfg _ (succEdgeOK_detach inp cfg st.succ h old)
            i jd.1 jd.2 (by simpa using hmem.1) hmem.2.1

theorem runLink_edgeOK (inp : LinkInputs) (cfg : PathCfg) :
    succEdgeOK inp cfg (runLink inp cfg).succ := by
  unfold runLink
  have hgen : ∀ (l : List ℕ) (st : LinkState), succEdgeOK inp cfg st.succ →
      succEdgeOK inp cfg ((l.foldl (linkStep inp cfg) st).succ) := by
    intro l
    induction l with
    | nil => intro st hst; exact hst
    | cons a l ih =>
      intro st hst
      simp only [List.foldl_cons]
      exact ih _ (linkStep_edgeOK inp cfg st a hst)
  exact hgen _ _ (fun a b hab => by cases hab)

theorem segPairs_succ (inp : LinkInputs) (cfg : PathCfg) :
    ∀ pr ∈ segPairs inp cfg, (runLink inp cfg).succ pr.1 = some pr.2 := by
  intro pr hpr
  unfold segPairs at hpr
  rw [List.mem_flatten] at hpr
  obtain ⟨l, hl, hprl⟩ := hpr
  rw [List.mem_map] at hl
  obtain ⟨c, hc, rfl⟩ := hl
  obtain ⟨hd, t, rfl, hch⟩ := chainsAux_shape _ _ _ _ _ c hc
  exact chain_zip_rel t hd hch pr hprl

/-- C10: every segment emitted by reconstruct_paths has planar length at most
max_link_m (dist_km at most max_link_m/1000), because successor edges are
drawn only from nearest-neighbour candidates passing the max-link mask and
chain segments connect exactly the linked pairs. The hypothesis states the
nearest-neighbour contract: each candidate distance is the hypot of the
planar offset of the pair. -/
theorem c10_segment_length_capped (hyp : ℚ → ℚ → ℚ) (ef : ℚ) (inp : LinkInputs) (cfg : PathCfg)
    (hc : ∀ i : ℕ, ∀ jd ∈ inp.cand i,
      jd.2 = hyp ((inp.X jd.1).1 - (inp.X i).1) ((inp.X jd.1).2 - (inp.X i).2)) :
    ∀ s ∈ vehicleSegments hyp ef inp cfg, s.dist_km ≤ cfg.max_link_m / 1000 := by
  intro s hs
  obtain ⟨pr, hpr, rfl⟩ := List.mem_map.mp hs
  have hsucc := segPairs_succ inp cfg pr hpr
  obtain ⟨d, hdmem, hdle⟩ := runLink_edgeOK inp cfg pr.1 pr.2 hsucc
  have hde := hc pr.1 (pr.2, d) hdmem
  show hyp ((inp.X pr.2).1 - (inp.X pr.1).1) ((inp.X pr.2).2 - (inp.X pr.1).2) / 1000 ≤
    cfg.max_link_m / 1000
  rw [← hde]
  linarith

/-- C7: for every emitted segment, dist_km is the planar Euclidean distance of
its recorded endpoints divided by 1000 (stated exactly via the square, the
rational embedding of hypot), and segment_kg_co2e equals dist_km times the
emission factor exactly. The hypothesis states that hypot is the Euclidean
norm on the offsets of the planar positions of the vehicle. -/
theorem c7_length_and_emissions (hyp : ℚ → ℚ → ℚ) (ef : ℚ) (inp : LinkInputs) (cfg : PathCfg)
    (he : ∀ a b : ℕ, 0 ≤ hyp ((inp.X b).1 - (inp.X a).1) ((inp.X b).2 - (inp.X a).2) ∧
      (hyp ((inp.X b).1 - (inp.X a).1) ((inp.X b).2 - (inp.X a).2)) ^ 2 =
        ((inp.X b).1 - (inp.X a).1) ^ 2 + ((inp.X b).2 - (inp.X a).2) ^ 2) :
    ∀ s ∈ vehicleSegments hyp ef inp cfg,
      0 ≤ s.dist_km ∧
        (1000 * s.dist_km) ^ 2 = (s.x2 - s.x1) ^ 2 + (s.y2 - s.y1) ^ 2 ∧
        s.segment_kg_co2e = s.dist_km * ef := by
  intro s hs
  obtain ⟨pr, hpr, rfl⟩ := List.mem_map.mp hs
  obtain ⟨hpos, hsq⟩ := he pr.1 pr.2
  refine ⟨div_nonneg hpos (by norm_num), ?_, rfl⟩
  show (1000 * (hyp ((inp.X pr.2).1 - (inp.X pr.1).1) ((inp.X pr.2).2 - (inp.X pr.1).2) / 1000)) ^ 2
    = ((inp.X pr.2).1 - (inp.X pr.1).1) ^ 2 + ((inp.X pr.2).2 - (inp.X pr.1).2) ^ 2
  rw [mul_div_cancel₀ _ (by norm_num : (1000 : ℚ) ≠ 0)]
  exact hsq

theorem maskedW0 : maskedCands inpW cfgW 0 = [(1, 50), (2, 100)] := by
  norm_num [maskedCands, inpW, cfgW, angTo, angDiff, qmod, List.filter]

theorem argmaxW0 :
    argmaxFirst (linkScore inpW cfgW 0) (maskedCands inpW cfgW 0) = some (1, 50) := by
  rw [maskedW0]
  norm_num [argmaxFirst, linkScore, expectedStep, clip, angTo, angDiff, qmod, inpW, cfgW]

theorem maskedW1 : maskedCands inpW cfgW 1 = [(2, 50)] := by
  norm_num [maskedCands, inpW, cfgW, angTo, angDiff, qmod, List.filter]

theorem argmaxW1 :
    argmaxFirst (linkScore inpW cfgW 1) (maskedCands inpW cfgW 1) = some (2, 50) := by
  rw [maskedW1]
  norm_num [argmaxFirst]

theorem maskedW2 : maskedCands inpW cfgW 2 = [] := by
  norm_num [maskedCands, inpW, cfgW, angTo, angDiff, qmod, List.filter]

theorem argmaxW2 :
    argmaxFirst (linkScore inpW cfgW 2) (maskedCands inpW cfgW 2) = none := by
  rw [maskedW2]
  rfl

theorem stepW0 : linkStep inpW cfgW stInit 0 = stW1 := by
  unfold linkStep
  rw [argmaxW0]
  rfl

theorem stepW1 : linkStep inpW cfgW stW1 1 = stW2 := by
  unfold linkStep
  rw [argmaxW1]
  rfl

theorem stepW2 : linkStep inpW cfgW stW2 2 = stW2 := by
  unfold linkStep
  rw [argmaxW2]

theorem runLinkW : runLink inpW cfgW = stW2 := by
  show (List.range inpW.n).foldl (linkStep inpW cfgW) stInit = stW2
  rw [show List.range inpW.n = [0, 1, 2] from rfl]
  simp only [List.foldl_cons, List.foldl_nil, stepW0, stepW1, stepW2]

theorem segPairsW : segPairs inpW cfgW = [(0, 1), (1, 2)] := by
  unfold segPairs
  rw [runLinkW]
  rfl

theorem hypAxis_euclidW (a b : ℕ) :
    0 ≤ hypAxis ((inpW.X b).1 - (inpW.X a).1) ((inpW.X b).2 - (inpW.X a).2) ∧
      (hypAxis ((inpW.X b).1 - (inpW.X a).1) ((inpW.X b).2 - (inpW.X a).2)) ^ 2 =
        ((inpW.X b).1 - (inpW.X a).1) ^ 2 + ((inpW.X b).2 - (inpW.X a).2) ^ 2 := by
  constructor
  · simp only [hypAxis]
    positivity
  · simp only [hypAxis, inpW]
    norm_num [sq_abs]

theorem candW_hyp : ∀ i : ℕ, ∀ jd ∈ inpW.cand i,
    jd.2 = hypAxis ((inpW.X jd.1).1 - (inpW.X i).1) ((inpW.X jd.1).2 - (inpW.X i).2) := by
  intro i jd hjd
  rcases i with _ | _ | _ | i
  · simp only [inpW, List.mem_cons, List.not_mem_nil, or_false] at hjd
    rcases hjd with rfl | rfl <;> norm_num [inpW, hypAxis]
  · simp only [inpW, List.mem_cons, List.not_mem_nil, or_false] at hjd
    rcases hjd with rfl | rfl <;> norm_num [inpW, hypAxis]
  · simp only [inpW, List.mem_cons, List.not_mem_nil, or_false] at hjd
    rcases hjd with rfl | rfl <;> norm_num [inpW, hypAxis]
  · simp [inpW] at hjd

/-- C7 witness: the three-ping northbound vehicle produces segments, and the
claim theorem instantiated there gives the exact length and emission
relations with emission factor 0.192. -/
theorem c7_witness :
    vehicleSegments hypAxis (24/125) inpW cfgW ≠ [] ∧
      ∀ s ∈ vehicleSegments hypAxis (24/125) inpW cfgW,
        0 ≤ s.dist_km ∧
          (1000 * s.dist_km) ^ 2 = (s.x2 - s.x1) ^ 2 + (s.y2 - s.y1) ^ 2 ∧
          s.segment_kg_co2e = s.dist_km * (24/125) :=
  ⟨by simp [vehicleSegments, segPairsW],
    c7_length_and_emissions hypAxis (24/125) inpW cfgW hypAxis_euclidW⟩

/-- C10 witness: the same instance, with every emitted segment at most
max_link_m/1000 km long. -/
theorem c10_witness :
    vehicleSegments hypAxis (24/125) inpW cfgW ≠ [] ∧
      ∀ s ∈ vehicleSegments hypAxis (24/125) inpW cfgW, s.dist_km ≤ cfgW.max_link_m / 1000 :=
  ⟨by simp [vehicleSegments, segPairsW],
    c10_segment_length_capped hypAxis (24/125) inpW cfgW candW_hyp⟩

theorem angCE02 : angTo ceInp 0 2 = 46 := by
  norm_num [angTo, ceInp, bearingCE, angDiff, qmod]

theorem angCE12 : angTo ceInp 1 2 = 50 := by
  norm_num [angTo, ceInp, bearingCE, angDiff, qmod]

theorem maskedCE0 : maskedCands ceInp ceCfg 0 = [(2, 40), (3, 13124/100)] := by
  norm_num [maskedCands, ceInp, ceCfg, angTo, angDiff, qmod, bearingCE, List.filter,
    abs_of_nonneg, abs_of_nonpos]

theorem argmaxCE0 :
    argmaxFirst (linkScore ceInp ceCfg 0) (maskedCands ceInp ceCfg 0) = some (2, 40) := by
  rw [maskedCE0]
  norm_num [argmaxFirst, linkScore, expectedStep, clip, angTo, angDiff, qmod, bearingCE,
    ceInp, ceCfg, abs_of_nonneg, abs_of_nonpos]

theorem maskedCE1 : maskedCands ceInp ceCfg 1 = [(2, 40), (3, 85)] := by
  norm_num [maskedCands, ceInp, ceCfg, angTo, angDiff, qmod, bearingCE, List.filter,
    abs_of_nonneg, abs_of_nonpos]

theorem argmaxCE1 :
    argmaxFirst (linkScore ceInp ceCfg 1) (maskedCands ceInp ceCfg 1) = some (2, 40) := by
  rw [maskedCE1]
  norm_num [argmaxFirst, linkScore, expectedStep, clip, angTo, angDiff, qmod, bearingCE,
    ceInp, ceCfg, abs_of_nonneg, abs_of_nonpos]

theorem maskedCE2 : maskedCands ceInp ceCfg 2 = [(0, 40)] := by
  norm_num [maskedCands, ceInp, ceCfg, angTo, angDiff, qmod, bearingCE, List.filter,
    abs_of_nonneg, abs_of_nonpos]

theorem argmaxCE2 :
    argmaxFirst (linkScore ceInp ceCfg 2) (maskedCands ceInp ceCfg 2) = some (0, 40) := by
  rw [maskedCE2]
  rfl

theorem maskedCE3 : maskedCands ceInp ceCfg 3 = [] := by
  norm_num [maskedCands, ceInp, ceCfg, angTo, angDiff, qmod, bearingCE, List.filter,
    abs_of_nonneg, abs_of_nonpos]

theorem argmaxCE3 :
    argmaxFirst (linkScore ceInp ceCfg 3) (maskedCands ceInp ceCfg 3) = none := by
  rw [maskedCE3]
  rfl

theorem minangCE1 : minMaskedAng ceInp ceCfg 1 = 40 := by
  unfold minMaskedAng
  rw [maskedCE1]
  norm_num [listMin, angTo, ceInp, bearingCE, angDiff, qmod]

theorem stepCE0 : linkStep ceInp ceCfg stInit 0 = stC1 := by
  unfold linkStep
  rw [argmaxCE0]
  rfl

theorem stepCE1 : linkStep ceInp ceCfg stC1 1 = stC2 := by
  unfold linkStep
  rw [argmaxCE1]
  show (if angTo ceInp 0 2 ≤ ceCfg.heading_tol_deg ∧ angTo ceInp 0 2 ≤ minMaskedAng ceInp ceCfg 1
    then stC1
    else install { stC1 with succ := Function.update stC1.succ 0 none } 1 2) = stC2
  rw [if_neg]
  · rfl
  · rw [angCE02, minangCE1]
    norm_num [ceCfg]

theorem stepCE2 : linkStep ceInp ceCfg stC2 2 = stC3 := by
  unfold linkStep
  rw [argmaxCE2]
  rfl

theorem stepCE3 : linkStep ceInp ceCfg stC3 3 = stC3 := by
  unfold linkStep
  rw [argmaxCE3]

theorem runLinkCE : runLink ceInp ceCfg = stC3 := by
  show (List.range ceInp.n).foldl (linkStep ceInp ceCfg) stInit = stC3
  rw [show List.range ceInp.n = [0, 1, 2, 3] from rfl]
  simp only [List.foldl_cons, List.foldl_nil, stepCE0, stepCE1, stepCE2, stepCE3]

/-- C3 counterexample: rows 0 and 1 both tentatively select row 2, the
angular difference of row 0 to row 2 (46) is smaller than that of row 1 (50),
yet the final state gives row 1 the edge and leaves row 0 with no successor:
the conflict is not resolved in favour of the source with the smaller angular
difference to the contested target, because the code compares the old edge
against the minimum angle over all masked candidates of the new source
(40, to row 3) instead of the angle of the new source to the target itself. -/
theorem c3_counterexample :
    selectTarget ceInp ceCfg 0 = some 2 ∧ selectTarget ceInp ceCfg 1 = some 2 ∧
      angTo ceInp 0 2 < angTo ceInp 1 2 ∧
      (runLink ceInp ceCfg).succ 0 = none ∧ (runLink ceInp ceCfg).succ 1 = some 2 := by
  refine ⟨?_, ?_, ?_, ?_, ?_⟩
  · unfold selectTarget; rw [argmaxCE0]; rfl
  · unfold selectTarget; rw [argmaxCE1]; rfl
  · rw [angCE02, angCE12]; norm_num
  · rw [runLinkCE]; rfl
  · rw [runLinkCE]; rfl

/-- C3 amended: when row i tentatively selects target j that already has a
predecessor, with old the unique row currently linked to j, the conflict is
resolved by keeping the existing edge if and only if its recomputed angular
difference to j is within the heading tolerance and at most the minimum
angular difference over all masked candidates of the new source (np.min of
the masked ang array, not the angle of the new source to j itself); otherwise the
old source is detached (left with no successor) and the edge i -> j is
installed. -/
theorem c3_amended_conflict_rule (inp : LinkInputs) (cfg : PathCfg) (st : LinkState)
    (i j old p : ℕ) (d : ℚ)
    (hsel : argmaxFirst (linkScore inp cfg i) (maskedCands inp cfg i) = some (j, d))
    (hpred : st.pred j = some p)
    (hfind : (List.range inp.n).find? (fun o => st.succ o == some j) = some old)
    (hold : old ≠ i) :
    (angTo inp old j ≤ cfg.heading_tol_deg ∧ angTo inp old j ≤ minMaskedAng inp cfg i →
      linkStep inp cfg st i = st) ∧
    (¬(angTo inp old j ≤ cfg.heading_tol_deg ∧ angTo inp old j ≤ minMaskedAng inp cfg i) →
      (linkStep inp cfg st i).succ old = none ∧ (linkStep inp cfg st i).succ i = some j ∧
        (linkStep inp cfg st i).pred j = some i) := by
  have hstep : linkStep inp cfg st i =
      if angTo inp old j ≤ cfg.heading_tol_deg ∧ angTo inp old j ≤ minMaskedAng inp cfg i
      then st
      else install { st with succ := Function.update st.succ old none } i j := by
    unfold linkStep
    rw [hsel]
    dsimp only
    rw [hpred, hfind]
  constructor
  · intro hc
    rw [hstep, if_pos hc]
  · intro hc
    rw [hstep, if_neg hc]
    refine ⟨?_, ?_, ?_⟩
    · show Function.update (Function.update st.succ old none) i (some j) old = none
      rw [Function.update_noteq hold, Function.update_same]
    · show Function.update (Function.update st.succ old none) i (some j) i = some j
      rw [Function.update_same]
    · show Function.update st.pred j (some i) j = some i
      rw [Function.update_same]

/-- C3 witness: the amended conflict rule applied at the concrete conflict
instance, at the iteration where row 1 contests row 2 held by row 0: the keep
condition fails (46 is not at most min(50, 40) = 40), so row 0 is detached
and row 1 takes the edge. -/
theorem c3_witness :
    (linkStep ceInp ceCfg stC1 1).succ 0 = none ∧
      (linkStep ceInp ceCfg stC1 1).succ 1 = some 2 ∧
      (linkStep ceInp ceCfg stC1 1).pred 2 = some 1 :=
  (c3_amended_conflict_rule ceInp ceCfg stC1 1 2 0 0 40 argmaxCE1 rfl rfl (by decide)).2
    (by rw [angCE02, minangCE1]; norm_num [ceCfg])

/-- C2 counterexample: a ping with unknown speed (NaN speed_kmh) is dropped by
the static filter at the default threshold 1, because fillna(0) treats the
unknown speed as 0, contradicting the claim that unknown-speed pings are
retained. -/
theorem c2_counterexample :
    staticFilter true 1 [{ speed := none }] = [] ∧
      ({ speed := none } : SPing) ∉ staticFilter true 1 [{ speed := none }] := by
  constructor
  · decide
  · decide

/-- C2 amended: with the speed column present, a ping is retained by the
static filter exactly when its speed with unknown values replaced by 0 is at
least the minimum threshold; in particular a ping with unknown speed is
retained only when the threshold is at most 0. -/
theorem c2_amended (minSpeed : ℚ) (rows : List SPing) (p : SPing) :
    p ∈ staticFilter true minSpeed rows ↔ p ∈ rows ∧ minSpeed ≤ p.speed.getD 0 := by
  simp [staticFilter, List.mem_filter]

/-- C4 counterexample: with maxRows = 2 and three vehicles of two pings each,
the spec quota floor(2/3) = 0 is below 2, but safe_sample does not switch to
sampling a subset of vehicles: it keeps every vehicle with
min(count, max(1, floor)) = 1 ping, so a retained vehicle keeps neither all
its pings nor zero of them. -/
theorem c4_counterexample :
    safeSampleCounts 2 [("a", 2), ("b", 2), ("c", 2)] = [("a", 1), ("b", 1), ("c", 1)] ∧
      ¬(∀ g ∈ safeSampleCounts 2 [("a", 2), ("b", 2), ("c", 2)], g.2 = 2 ∨ g.2 = 0) := by
  constructor
  · decide
  · decide

/-- C4 amended: when the row count exceeds maxRows, every vehicle stays
represented: each group keeps min(count, max(1, floor(maxRows / vehicle
count))) pings, which is at least 1 whenever the group was nonempty; there is
no branch sampling a subset of vehicles. -/
theorem c4_amended (maxRows : ℕ) (groups : List (String × ℕ))
    (h : maxRows < (groups.map (fun g => g.2)).sum) :
    ∀ g ∈ groups,
      (g.1, min g.2 (perQuota maxRows groups.length)) ∈ safeSampleCounts maxRows groups ∧
        (1 ≤ g.2 → 1 ≤ min g.2 (perQuota maxRows groups.length)) := by
  intro g hg
  constructor
  · unfold safeSampleCounts
    rw [if_neg (not_le.mpr h)]
    exact List.mem_map.mpr ⟨g, hg, rfl⟩
  · intro h1
    have hq : 1 ≤ perQuota maxRows groups.length := le_max_left _ _
    exact le_min h1 hq

/-- C4 witness: the amended statement applied at the counterexample input,
for vehicle a. -/
theorem c4_witness :
    (("a", min 2 (perQuota 2 3)) ∈ safeSampleCounts 2 [("a", 2), ("b", 2), ("c", 2)]) ∧
      (1 ≤ 2 → 1 ≤ min 2 (perQuota 2 3)) :=
  c4_amended 2 [("a", 2), ("b", 2), ("c", 2)] (by decide) ("a", 2) (by decide)

/-- C9 counterexample: a non-empty frame missing only azm and a non-empty
frame missing only lat raise the same fixed ValueError message, so the error
does not identify which required field is missing. -/
theorem c9_counterexample :
    reconstructPathsTop (fun _ => []) ⟨["lat", "lng", "randomized_id"], 3⟩ =
        .error reconColsMsg ∧
      reconstructPathsTop (fun _ => []) ⟨["lng", "randomized_id", "azm"], 3⟩ =
        .error reconColsMsg := by
  constructor
  · rfl
  · rfl

/-- C9 amended: an input with zero pings yields the empty segments frame
without raising, even if columns are missing; a non-empty input missing any
of the required columns raises a ValueError whose fixed message lists the
whole required column set (without singling out the missing one), and no
segment output is produced in that case. -/
theorem c9_amended (compute : RawDF → List Seg) (df : RawDF) :
    (df.nrows = 0 → reconstructPathsTop compute df = .ok []) ∧
    (df.nrows ≠ 0 → (∃ c ∈ requiredCols, ¬df.cols.contains c) →
      reconstructPathsTop compute df = .error reconColsMsg) := by
  constructor
  · intro h
    unfold reconstructPathsTop
    rw [if_pos h]
  · intro h hc
    obtain ⟨c, hcmem, hcc⟩ := hc
    unfold reconstructPathsTop
    rw [if_neg h, if_neg]
    intro hall
    rw [List.all_eq_true] at hall
    exact hcc (hall c hcmem)

/-- C9 witness: the amended statement applied to a non-empty frame missing
azm, and to an empty frame with no columns at all. -/
theorem c9_witness :
    reconstructPathsTop (fun _ => []) ⟨["lat", "lng", "randomized_id"], 3⟩ =
        .error reconColsMsg ∧
      reconstructPathsTop (fun _ => []) ⟨[], 0⟩ = .ok [] :=
  ⟨(c9_amended (fun _ => []) ⟨["lat", "lng", "randomized_id"], 3⟩).2 (by decide)
      ⟨"azm", by decide, by decide⟩,
    (c9_amended (fun _ => []) ⟨[], 0⟩).1 rfl⟩

theorem knownCE : knownSpeeds dfCE = List.replicate 5 6 ++ List.replicate 16 20 := by
  simp [knownSpeeds, dfCE]

theorem quantCE : quantileLinear (1/4) (knownSpeeds dfCE) = 20 := by
  rw [knownCE]
  norm_num [quantileLinear, List.insertionSort, List.orderedInsert, List.replicate, List.getD]
  rfl

theorem lowCE : lowPings dfCE = List.replicate 5 ⟨some 6⟩ := by
  unfold lowPings
  rw [quantCE]
  norm_num [dfCE, List.replicate, List.filter]

theorem congCE : congestionInput dfCE = some (List.replicate 5 ⟨some 6⟩) := by
  unfold congestionInput
  rw [lowCE]
  rfl

theorem specSlowCE : specSlowPings dfCE = [] := by
  unfold specSlowPings
  rw [quantCE]
  norm_num [dfCE, List.replicate, List.filter]

/-- C5 counterexample: on 5 pings at 6 km/h and 16 at 20 km/h the 25th
percentile is 20, so the code feeds the clustering primitive the pings with
speed below max(5, 20) = 20 (the five 6 km/h pings), while the claimed
selection, speed below the smaller min(5, 20) = 5, contains none of them. -/
theorem c5_counterexample :
    congestionInput dfCE = some (List.replicate 5 ⟨some 6⟩) ∧
      (⟨some 6⟩ : SPing) ∈ List.replicate 5 (⟨some 6⟩ : SPing) ∧
      (⟨some 6⟩ : SPing) ∉ specSlowPings dfCE := by
  refine ⟨congCE, by decide, ?_⟩
  rw [specSlowCE]
  simp

/-- C5 amended: the pings fed to the congestion clustering are exactly those
with known speed below the larger of the fixed threshold 5 and the 25th
percentile of the known speeds (and they are fed only when at least 5 of
them exist). -/
theorem c5_amended (df l : List SPing) (p : SPing)
    (hl : congestionInput df = some l) :
    p ∈ l ↔ p ∈ df ∧ ∃ v, p.speed = some v ∧
      v < max 5 (quantileLinear (1/4) (knownSpeeds df)) := by
  have hl2 : l = lowPings df := by
    unfold congestionInput at hl
    by_cases h5 : 5 ≤ (lowPings df).length
    · rw [if_pos h5] at hl
      exact (Option.some.injEq _ _ ▸ hl).symm
    · rw [if_neg h5] at hl
      cases hl
  subst hl2
  unfold lowPings
  rw [List.mem_filter]
  refine and_congr_right fun _ => ?_
  cases hs : p.speed <;> simp [hs]

/-- C5 witness: the amended statement applied at the counterexample data and
one of the slow pings. -/
theorem c5_witness :
    (⟨some 6⟩ : SPing) ∈ List.replicate 5 (⟨some 6⟩ : SPing) ↔
      (⟨some 6⟩ : SPing) ∈ dfCE ∧ ∃ v, (⟨some 6⟩ : SPing).speed = some v ∧
        v < max 5 (quantileLinear (1/4) (knownSpeeds dfCE)) :=
  c5_amended dfCE (List.replicate 5 ⟨some 6⟩) ⟨some 6⟩ congCE

/-- C8: grid accumulation is order independent: permuting the input rows
yields the identical list of (cell center, summed weight) outputs, cell for
cell. -/
theorem c8_grid_accumulate_perm (mpd : ℚ → ℚ × ℚ) (cell : ℚ) (rows1 rows2 : List GRow)
    (h : rows1.Perm rows2) :
    gridAccumulate mpd rows1 cell = gridAccumulate mpd rows2 cell := by
  simp only [gridAccumulate]
  have hlat : qmean (rows1.map (fun r => r.lat)) = qmean (rows2.map (fun r => r.lat)) := by
    unfold qmean
    rw [(h.map _).sum_eq, (h.map _).length_eq]
  have hlng : qmean (rows1.map (fun r => r.lng)) = qmean (rows2.map (fun r => r.lng)) := by
    unfold qmean
    rw [(h.map _).sum_eq, (h.map _).length_eq]
  have huniq : List.insertionSort keyLe ((rows1.map (cellKey cell)).dedup) =
      List.insertionSort keyLe ((rows2.map (cellKey cell)).dedup) := by
    refine List.eq_of_perm_of_sorted ?_ (List.sorted_insertionSort keyLe _)
      (List.sorted_insertionSort keyLe _)
    exact ((List.perm_insertionSort _ _).trans ((h.map _).dedup)).trans
      (List.perm_insertionSort _ _).symm
  rw [hlat, hlng, huniq]
  apply List.map_congr_left
  intro k _
  have hsum : ((rows1.filter (fun r => decide (cellKey cell r = k))).map (fun r => r.w)).sum =
      ((rows2.filter (fun r => decide (cellKey cell r = k))).map (fun r => r.w)).sum :=
    ((h.filter _).map _).sum_eq
  rw [hsum]

/-- C8 witness: the theorem applied to two concrete rows in either order. -/
theorem c8_witness :
    gridAccumulate mpdC [rowA, rowB] 75 = gridAccumulate mpdC [rowB, rowA] 75 :=
  c8_grid_accumulate_perm mpdC 75 [rowA, rowB] [rowB, rowA] (List.Perm.swap rowB rowA [])

theorem pickupsGrid_eval : pickupsGrid mpdC segsC 80 =
    [(-13/2500, 99952/10000, 1), (-13/2500, 99960/10000, 1)] := by
  norm_num [pickupsGrid, segsC, mpdC, gridAccumulate, qmean, cellKey, List.dedup,
    List.insertionSort, List.orderedInsert, keyLe, List.filter]

theorem pickupsGridSameFrame_eval : pickupsGridSameFrame mpdC segsC 80 =
    [(-1/5000, 100002/10000, 1), (-1/5000, 100010/10000, 1)] := by
  norm_num [pickupsGridSameFrame, segsC, mpdC, gridAccumulateSameFrame, qmean, cellKey,
    List.dedup, List.insertionSort, List.orderedInsert, keyLe, List.filter]

/-- C6: at the concrete endpoint-map input, _grid_accumulate back-projects
the pickup cells through a frame anchored at the mean of the pickup rows
alone (latitude 0, longitude 10.0004) although their x,y were produced in
the global frame of all endpoints (latitude 0.005, longitude 10.0054), so
every emitted cell center differs from the back-projection through the
production frame: the cell centers come out 0.0052 degrees of latitude south
of where the same-frame back-projection puts them. -/
theorem c6_frame_mix_bug :
    pickupsGrid mpdC segsC 80 = [(-13/2500, 99952/10000, 1), (-13/2500, 99960/10000, 1)] ∧
      pickupsGridSameFrame mpdC segsC 80 =
        [(-1/5000, 100002/10000, 1), (-1/5000, 100010/10000, 1)] ∧
      pickupsGrid mpdC segsC 80 ≠ pickupsGridSameFrame mpdC segsC 80 := by
  refine ⟨pickupsGrid_eval, pickupsGridSameFrame_eval, ?_⟩
  rw [pickupsGrid_eval, pickupsGridSameFrame_eval]
  intro h
  have h1 := List.head_eq_of_cons_eq h
  have h2 : (-13/2500 : ℚ) = -1/5000 := congrArg Prod.fst h1
  norm_num at h2
